import Mathlib

/-!
# Verification of the TiDB CDC consumer's event reconciliation engine

Shallow embedding of the event-processing core of the `tidb-nodejs`
repository, translated from the JavaScript sources:

* `src/unnamed/part_001` — the evolved consumer (`TiDBCDCConsumer`):
  simple-protocol normalization, WATERMARK/BOOTSTRAP control events, and the
  split-update reconciliation built on the `recentDeletes` map, the 500 ms
  `setTimeout` finalize callbacks and the 30 s `setInterval` sweep.
* `src/consumer/index.js` — the Canal-array consumer: one canonical event
  per element of an array-valued `data` field.

Modelling conventions, fixed once here:

* JSON values are the inductive `JVal`; a field read `payload.x` is
  `jsGet payload "x"` returning `Option JVal` (`none` = JS `undefined`).
  Member access on JS `null` throws `TypeError`; the translation routes
  those spots to the surrounding `try/catch` explicitly.
* `JSON.parse` of the raw value bytes is represented by the message carrying
  `Option JVal` (`none` = the bytes do not parse); the engine never looks at
  unparseable bytes except to fall into its parse-failure branch.
* JS strict equality `===` is `strictEqOpt`; two objects or arrays obtained
  from distinct `JSON.parse` calls are distinct references, so `===` on them
  is `false`, which is how `strictEqOpt` treats the `arr`/`obj` cases (the
  code only ever compares values originating from different messages).
* The JS `Map` is an association list; `Map.set` is modelled as
  remove-then-prepend and `Map.delete` as filtering the key out.  Iteration
  order of the map is observable only inside the sweep, whose result is
  order-insensitive, so this is behaviour-preserving.
* Side effects are recorded as a trace of `Item`s: a counter-increment +
  `CDC Event` log pair is `Item.emit` (tagged with the program point that
  produced it), store mutations are `setKey`/`delKey`, and the remaining
  metrics are `kafkaMsg`, `kafkaError` and `timerObs`.
* The Node.js event loop is modelled by `runA`: before each externally
  triggered action (message delivery, sweep tick, or plain idling) every
  scheduled finalize task whose due time has been reached fires, in
  scheduling order.
-/

/-- A parsed JSON value (the result of a successful `JSON.parse`). -/
inductive JVal where
  | null : JVal
  | bool : Bool → JVal
  | num : Int → JVal
  | str : String → JVal
  | arr : List JVal → JVal
  | obj : List (String × JVal) → JVal

/-- JS truthiness of a value. -/
def jsTruthy : JVal → Bool
  | .null => false
  | .bool b => b
  | .num n => n != 0
  | .str s => s != ""
  | .arr _ => true
  | .obj _ => true

/-- JS truthiness of a possibly-`undefined` value. -/
def jsTruthyO : Option JVal → Bool
  | some v => jsTruthy v
  | none => false

/-- Property read `v.k`; `none` is JS `undefined`.  Only objects carry the
field names this program reads; reads on `null` are handled at the call
sites where the source would throw. -/
def jsGet : JVal → String → Option JVal
  | .obj fs, k => List.lookup k fs
  | _, _ => none

/-- `true` exactly for the JS `null` value. -/
def isNullV : JVal → Bool
  | .null => true
  | _ => false

mutual
/-- JS string coercion (template literals, label stringification). -/
def jsToString : JVal → String
  | .null => "null"
  | .bool b => cond b "true" "false"
  | .num n => toString n
  | .str s => s
  | .arr xs => jsListToString xs
  | .obj _ => "[object Object]"

/-- `Array.prototype.toString`: elements joined by `","`, `null` elements
rendered empty. -/
def jsListToString : List JVal → String
  | [] => ""
  | [.null] => ""
  | [v] => jsToString v
  | .null :: vs => "," ++ jsListToString vs
  | v :: vs => jsToString v ++ "," ++ jsListToString vs
end

/-- Does `p` occur as a prefix of `s` (character lists)? -/
def listHasPrefix : List Char → List Char → Bool
  | _, [] => true
  | [], _ :: _ => false
  | c :: cs, p :: ps => c == p && listHasPrefix cs ps

/-- Does `p` occur as a substring of `s` (character lists)? -/
def listContainsSub : List Char → List Char → Bool
  | [], p => p.isEmpty
  | c :: rest, p => listHasPrefix (c :: rest) p || listContainsSub rest p

/-- JS `String.prototype.includes` for a non-empty pattern. -/
def includesSub (s pat : String) : Bool :=
  listContainsSub s.data pat.data

/-- JS strict equality `===` on possibly-`undefined` values.  Primitive
values compare structurally; objects and arrays are compared by reference,
and every comparison the program performs is between values from distinct
`JSON.parse` results, hence `false`. -/
def strictEqOpt : Option JVal → Option JVal → Bool
  | none, none => true
  | some (.null), some (.null) => true
  | some (.bool a), some (.bool b) => a == b
  | some (.num a), some (.num b) => a == b
  | some (.str a), some (.str b) => a == b
  | _, _ => false

/-- The Kafka message key as the consumer sees it: absent, present but not
JSON (kept as an opaque raw string), or parsed JSON. -/
inductive MsgKey where
  | absent : MsgKey
  | raw : MsgKey
  | parsed : JVal → MsgKey

/-- One raw message; `value` is the `JSON.parse` outcome of the value
bytes (`none` = malformed JSON). -/
structure RawMessage where
  key : MsgKey
  value : Option JVal

/-- `tableName` derived from the message key: `messageKey.tbl ||
messageKey.table || 'unknown'`, with the throw-on-`null` access caught and
the key degraded to its raw form (source lines 164-173). -/
def keyTable : MsgKey → String
  | .absent => "unknown"
  | .raw => "unknown"
  | .parsed .null => "unknown"
  | .parsed v =>
      if jsTruthyO (jsGet v "tbl") then jsToString ((jsGet v "tbl").getD .null)
      else if jsTruthyO (jsGet v "table") then jsToString ((jsGet v "table").getD .null)
      else "unknown"

/-- `payload.table || tableName` with the key-derived fallback, coerced to
the string used in labels and the composite delete key. -/
def tableNameOf (k : MsgKey) (payload : JVal) : String :=
  if jsTruthyO (jsGet payload "table") then jsToString ((jsGet payload "table").getD .null)
  else keyTable k

/-- `payload.table || 'unknown'` (the Canal consumer has no key fallback). -/
def resolvedTable (payload : JVal) : String :=
  if jsTruthyO (jsGet payload "table") then jsToString ((jsGet payload "table").getD .null)
  else "unknown"

/-- The label `payload.type || 'unknown'` used for the duration metric. -/
def timerOp (payload : JVal) : String :=
  match jsGet payload "type" with
  | some v => if jsTruthy v then jsToString v else "unknown"
  | none => "unknown"

/-- `extractRecordId` (source lines 127-134): prefer a present `id` field
(whatever its value, including `null`), then a truthy `username`, then a
truthy `email`; otherwise JS `null`. -/
def extractRecordId (data : JVal) : JVal :=
  if jsTruthy data && (jsGet data "id").isSome then (jsGet data "id").getD .null
  else if jsTruthy data && jsTruthyO (jsGet data "username") then (jsGet data "username").getD .null
  else if jsTruthy data && jsTruthyO (jsGet data "email") then (jsGet data "email").getD .null
  else .null

/-- A tracked recent DELETE: `{ commitTs, timestamp, data }` (source line
287-291). -/
structure PendingDelete where
  commitTs : Option JVal
  timestamp : Nat
  data : JVal

/-- The `recentDeletes` JS `Map`, as an association list. -/
abbrev Store := List (String × PendingDelete)

/-- `Map.delete`: drop the key's entry. -/
def mapDelete (k : String) : Store → Store
  | [] => []
  | e :: rest => if e.1 = k then mapDelete k rest else e :: mapDelete k rest

/-- `Map.set`: bind `k` to `v`, replacing any previous entry. -/
def mapSet (k : String) (v : PendingDelete) (st : Store) : Store :=
  (k, v) :: mapDelete k st

/-- `Map.get` (first binding). -/
def mapGet (k : String) : Store → Option PendingDelete
  | [] => none
  | e :: rest => if e.1 = k then some e.2 else mapGet k rest

/-- `Map.has`. -/
def hasKey (k : String) (st : Store) : Bool :=
  (mapGet k st).isSome

/-- The program point that produced an emission. -/
inductive Site where
  | simple : Site
  | control : Site
  | finalize : String → Site
  | updateClaim : String → Site
  | insertPlain : Site
  | passthrough : Site
  | canal : Site

/-- One canonical emitted event: the paired counter increment and
`CDC Event` log record.  `op` is the `operation_type` as logged (the
counter uses its lowercase form). -/
structure Event where
  table : String
  op : String
  data : Option JVal
  oldData : Option JVal

/-- One observable step in the trace of a message/timer/sweep execution. -/
inductive Item where
  | emit : Site → Event → Item
  | setKey : String → Item
  | delKey : String → Item
  | kafkaMsg : Item
  | kafkaError : Item
  | timerObs : String → String → Item

/-- The canonical-event stream of a trace. -/
def eventsOf (items : List Item) : List Event :=
  items.filterMap fun i => match i with
    | .emit _ e => some e
    | _ => none

/-- Trace of the outer `catch` (source lines 414-418): the error counter
and the `(error, error)` duration observation; no event is emitted. -/
def catchItems : List Item := [Item.kafkaError, Item.timerObs "error" "error"]

/-- Simple-protocol classification (source lines 182-186): truthy `schema`,
truthy `table`, and `type !== undefined`. -/
def isSimpleProtocol (payload : JVal) : Bool :=
  jsTruthyO (jsGet payload "schema") && jsTruthyO (jsGet payload "table")
    && (jsGet payload "type").isSome

/-- Simple-protocol operation resolution (source lines 205-213):
`0→INSERT, 1→UPDATE, 2→DELETE`, otherwise `'unknown'`. -/
def simpleOpType (payload : JVal) : String :=
  if strictEqOpt (jsGet payload "type") (some (.num 0)) then "INSERT"
  else if strictEqOpt (jsGet payload "type") (some (.num 1)) then "UPDATE"
  else if strictEqOpt (jsGet payload "type") (some (.num 2)) then "DELETE"
  else "unknown"

/-- Simple-protocol data image (source lines 215-224): `payload.data` when
the operation resolved and `data` is truthy, else `{}`. -/
def simpleData (payload : JVal) : JVal :=
  let op := simpleOpType payload
  if (op == "INSERT" || op == "UPDATE" || op == "DELETE")
      && jsTruthyO (jsGet payload "data")
  then (jsGet payload "data").getD .null
  else .obj []

/-- The demonstration heuristic (source lines 226-231): an INSERT whose
truthy `data.email` contains `updated_` or `mass_update_` is reclassified
as UPDATE.  `none` models the `TypeError` thrown by `.includes` on a
truthy non-string `email`. -/
def simpleHeuristic (op : String) (data : JVal) : Option String :=
  if op == "INSERT" && jsTruthyO (jsGet data "email") then
    match jsGet data "email" with
    | some (.str e) =>
        some (if includesSub e "updated_" || includesSub e "mass_update_"
              then "UPDATE" else op)
    | _ => none
  else some op

/-- `old_data: payload.old || null` of the simple-protocol log record. -/
def simpleOldData (payload : JVal) : Option JVal :=
  if jsTruthyO (jsGet payload "old") then jsGet payload "old" else none

/-- A scheduled `setTimeout` finalize callback (source lines 300-321),
closed over the delete key, commit timestamp, table name and the DELETE
payload it will log. -/
structure FinalizeTask where
  due : Nat
  deleteKey : String
  commitTs : Option JVal
  tableName : String
  payload : JVal

/-- The consumer's mutable state: the `recentDeletes` map and the
outstanding finalize timers. -/
structure EngineState where
  recentDeletes : Store
  tasks : List FinalizeTask

/-- Fresh consumer state. -/
def initState : EngineState := ⟨[], []⟩

/-- The correlation window of the finalize timer (source line 321). -/
def correlationWindowMs : Nat := 500

/-- The staleness threshold of the background sweep (source line 120). -/
def staleThresholdMs : Nat := 5000

/-- The period of the background sweep (source line 124). -/
def sweepIntervalMs : Nat := 30000

/-- `operationType = payload.type || 'unknown'` (source line 279). -/
def splitOpVal (payload : JVal) : JVal :=
  match jsGet payload "type" with
  | some v => if jsTruthy v then v else .str "unknown"
  | none => .str "unknown"

/-- `processCDCMessage` of `src/unnamed/part_001` (lines 155-419), one
message against one state; `now` is `Date.now()` at processing time.
Returns the successor state and the observable trace. -/
def processCDCMessage (now : Nat) (msg : RawMessage) (s : EngineState) :
    EngineState × List Item :=
  match msg.value with
  | none =>
      -- JSON parse failure (lines 187-198): warn-log, message counter,
      -- duration observation labelled (unknown, parse_error); no event.
      (s, [.kafkaMsg, .timerObs "unknown" "parse_error"])
  | some payload =>
    if isNullV payload then
      -- `payload.schema` on JS null throws; caught by the outer catch.
      (s, catchItems)
    else
      if isSimpleProtocol payload then
        let tableName := tableNameOf msg.key payload
        let data := simpleData payload
        match simpleHeuristic (simpleOpType payload) data with
        | none => (s, catchItems)
        | some op =>
            (s, [.emit .simple ⟨tableName, op, some data, simpleOldData payload⟩,
                 .kafkaMsg, .timerObs tableName (timerOp payload)])
      else
        let ty := jsGet payload "type"
        if strictEqOpt ty (some (.str "WATERMARK"))
            || strictEqOpt ty (some (.str "BOOTSTRAP")) then
          let tyS := if strictEqOpt ty (some (.str "WATERMARK"))
                     then "WATERMARK" else "BOOTSTRAP"
          let tyL := if strictEqOpt ty (some (.str "WATERMARK"))
                     then "watermark" else "bootstrap"
          (s, [.emit .control ⟨"unknown", tyS, some payload, none⟩,
               .kafkaMsg, .timerObs "unknown" tyL])
        else
          let tableName := tableNameOf msg.key payload
          let opJ := splitOpVal payload
          let commitTs := jsGet payload "commitTs"
          if strictEqOpt (some opJ) (some (.str "DELETE"))
              && jsTruthyO (jsGet payload "old")
              && !isNullV (extractRecordId ((jsGet payload "old").getD .null)) then
            -- DELETE with extractable identity (lines 283-326): register the
            -- pending delete, schedule the finalize timer, emit nothing yet.
            let old := (jsGet payload "old").getD .null
            let dk := tableName ++ "_" ++ jsToString (extractRecordId old)
            (⟨mapSet dk ⟨commitTs, now, old⟩ s.recentDeletes,
              s.tasks ++ [⟨now + correlationWindowMs, dk, commitTs, tableName, payload⟩]⟩,
             [.setKey dk, .kafkaMsg, .timerObs tableName "delete"])
          else if strictEqOpt (some opJ) (some (.str "INSERT"))
              && jsTruthyO (jsGet payload "data") then
            -- INSERT (lines 330-392): claim a matching pending delete as an
            -- UPDATE, otherwise emit a plain INSERT.
            let dat := (jsGet payload "data").getD .null
            let rid := extractRecordId dat
            let plainIns : EngineState × List Item :=
              (s, [.emit .insertPlain ⟨tableName, "INSERT", some dat, none⟩,
                   .kafkaMsg, .timerObs tableName "insert"])
            if !isNullV rid then
              let dk := tableName ++ "_" ++ jsToString rid
              match mapGet dk s.recentDeletes with
              | some info =>
                  if strictEqOpt info.commitTs commitTs then
                    (⟨mapDelete dk s.recentDeletes, s.tasks⟩,
                     [.delKey dk,
                      .emit (.updateClaim dk) ⟨tableName, "UPDATE", some dat, some info.data⟩,
                      .kafkaMsg, .timerObs tableName "update"])
                  else plainIns
              | none => plainIns
            else plainIns
          else
            -- Other operation tags (lines 394-408): emitted as-is; the
            -- counter's `.toLowerCase()` throws on a truthy non-string tag.
            match opJ with
            | .str sOp =>
                (s, [.emit .passthrough ⟨tableName, sOp, some payload, none⟩,
                     .kafkaMsg, .timerObs tableName (timerOp payload)])
            | _ => (s, catchItems)

/-- The body of one finalize `setTimeout` callback (source lines 300-321):
if the entry is still present with the same `commitTs`, emit the standalone
DELETE and remove it; otherwise do nothing. -/
def runTask (t : FinalizeTask) (st : Store) : Store × List Item :=
  match mapGet t.deleteKey st with
  | some info =>
      if strictEqOpt info.commitTs t.commitTs then
        (mapDelete t.deleteKey st,
         [.emit (.finalize t.deleteKey) ⟨t.tableName, "DELETE", some t.payload, none⟩,
          .delKey t.deleteKey])
      else (st, [])
  | none => (st, [])

/-- Fire, in scheduling order, every task whose due time has been reached. -/
def fireDueAux (now : Nat) : List FinalizeTask → Store → Store × List FinalizeTask × List Item
  | [], st => (st, [], [])
  | t :: ts, st =>
      if t.due ≤ now then
        let r1 := runTask t st
        let r2 := fireDueAux now ts r1.1
        (r2.1, r2.2.1, r1.2 ++ r2.2.2)
      else
        let r2 := fireDueAux now ts st
        (r2.1, t :: r2.2.1, r2.2.2)

/-- Fire all due finalize timers against the engine state. -/
def fireDue (now : Nat) (s : EngineState) : EngineState × List Item :=
  let r := fireDueAux now s.tasks s.recentDeletes
  (⟨r.1, r.2.1⟩, r.2.2)

/-- The background sweep body (source lines 116-124): drop every entry
older than `staleThresholdMs`; nothing is emitted. -/
def sweepStore (now : Nat) : Store → Store × List Item
  | [] => ([], [])
  | e :: rest =>
      let r := sweepStore now rest
      if now - e.2.timestamp > staleThresholdMs then (r.1, .delKey e.1 :: r.2)
      else (e :: r.1, r.2)

/-- An externally triggered step: a message delivery, a sweep tick, or mere
passage of time (during which only due timers run). -/
inductive Act where
  | deliver : RawMessage → Act
  | sweep : Act
  | idle : Act

/-- One scheduling step at wall-clock `now`: due finalize timers fire
first, then the action runs. -/
def stepA (now : Nat) (a : Act) (s : EngineState) : EngineState × List Item :=
  let f := fireDue now s
  match a with
  | .deliver m =>
      let p := processCDCMessage now m f.1
      (p.1, f.2 ++ p.2)
  | .sweep =>
      let r := sweepStore now f.1.recentDeletes
      (⟨r.1, f.1.tasks⟩, f.2 ++ r.2)
  | .idle => f

/-- Run a timed action sequence. -/
def runA : List (Nat × Act) → EngineState → EngineState × List Item
  | [], s => (s, [])
  | (t, a) :: rest, s =>
      let r1 := stepA t a s
      let r2 := runA rest r1.1
      (r2.1, r1.2 ++ r2.2)

namespace Canal

/-- Per-row operation resolution of the Canal loop (`src/consumer/index.js`
lines 142-151 together with the `.toLowerCase()` of line 156): for an
`INSERT` tag, apply the email heuristic to the row (`none` models the
`TypeError` on a `null` row or a truthy non-string `email`); any other tag
must itself be a string or `.toLowerCase()` throws. -/
def rowOp (opJ : JVal) (row : JVal) : Option String :=
  if strictEqOpt (some opJ) (some (.str "INSERT")) then
    if isNullV row then none
    else if jsTruthyO (jsGet row "email") then
      match jsGet row "email" with
      | some (.str e) =>
          some (if includesSub e "updated_" || includesSub e "mass_update_"
                then "UPDATE" else "INSERT")
      | _ => none
    else some "INSERT"
  else
    match opJ with
    | .str sOp => some sOp
    | _ => none

/-- The `for (const row of payload.data)` loop (lines 140-169): one emission
per row; a thrown row aborts the remainder (`true` = threw). -/
def rowsLoop (tableName : String) (opJ : JVal) : List JVal → List Item × Bool
  | [] => ([], false)
  | row :: rest =>
      match rowOp opJ row with
      | none => ([], true)
      | some op =>
          let r := rowsLoop tableName opJ rest
          (Item.emit .canal ⟨tableName, op, some row, none⟩ :: r.1, r.2)

/-- `payload.type || payload.op || 'unknown'` of the non-array branch
(line 173). -/
def elseOpVal (payload : JVal) : JVal :=
  match jsGet payload "type" with
  | some v =>
      if jsTruthy v then v
      else match jsGet payload "op" with
           | some w => if jsTruthy w then w else .str "unknown"
           | none => .str "unknown"
  | none =>
      match jsGet payload "op" with
      | some w => if jsTruthy w then w else .str "unknown"
      | none => .str "unknown"

/-- `processCDCMessage` of `src/consumer/index.js` (lines 131-199).  The
consumer is stateless; the result is the observable trace. -/
def processCDCMessage (msg : RawMessage) : List Item :=
  match msg.value with
  | none => catchItems
  | some payload =>
    if isNullV payload then catchItems
    else
      match jsGet payload "data" with
      | some (.arr rows) =>
          -- Canal-array branch (lines 139-169).
          let tableName := resolvedTable payload
          let r := rowsLoop tableName (splitOpVal payload) rows
          if r.2 then r.1 ++ catchItems
          else r.1 ++ [.kafkaMsg, .timerObs (resolvedTable payload) (timerOp payload)]
      | _ =>
          -- Other message formats (lines 170-189).
          let tableName := resolvedTable payload
          match elseOpVal payload with
          | .str sOp =>
              [.emit .canal ⟨tableName, sOp, some payload, none⟩,
               .kafkaMsg, .timerObs (resolvedTable payload) (timerOp payload)]
          | _ => catchItems

end Canal

/-! ## General lemmas about the trace and the store -/

theorem eventsOf_append (a b : List Item) :
    eventsOf (a ++ b) = eventsOf a ++ eventsOf b := by
  simp [eventsOf, List.filterMap_append]

theorem mapGet_mapDelete_self (k : String) (st : Store) :
    mapGet k (mapDelete k st) = none := by
  induction st with
  | nil => rfl
  | cons e rest ih =>
      by_cases h : e.1 = k
      · simpa [mapDelete, h] using ih
      · simpa [mapDelete, mapGet, h] using ih

theorem mapGet_mapDelete_ne {k k' : String} (h : k ≠ k') (st : Store) :
    mapGet k (mapDelete k' st) = mapGet k st := by
  induction st with
  | nil => rfl
  | cons e rest ih =>
      by_cases he : e.1 = k'
      · have hek : e.1 ≠ k := fun hk => h (hk.symm.trans he)
        simp only [mapDelete, if_pos he, mapGet, if_neg hek]
        exact ih
      · simp only [mapDelete, mapGet, if_neg he]
        by_cases hk : e.1 = k
        · simp [hk]
        · simpa [hk] using ih

theorem mapGet_mapSet_self (k : String) (v : PendingDelete) (st : Store) :
    mapGet k (mapSet k v st) = some v := by
  simp [mapSet, mapGet]

theorem mapGet_mapSet_ne {k k' : String} (h : k ≠ k') (v : PendingDelete) (st : Store) :
    mapGet k (mapSet k' v st) = mapGet k st := by
  simp only [mapSet, mapGet]
  rw [if_neg (fun hk => h hk.symm)]
  exact mapGet_mapDelete_ne h st

/-- An extractable record identity forces a truthy record image. -/
theorem jsTruthy_of_extract {d : JVal} (h : isNullV (extractRecordId d) = false) :
    jsTruthy d = true := by
  by_cases ht : jsTruthy d = true
  · exact ht
  · exfalso
    have : extractRecordId d = .null := by
      simp [extractRecordId, Bool.eq_false_iff.mpr ht,
            show jsTruthy d = false from Bool.eq_false_iff.mpr ht]
    rw [this] at h
    simp [isNullV] at h

/-- A string containing one of the heuristic substrings is non-empty. -/
theorem ne_empty_of_heuristic {e : String}
    (h : (includesSub e "updated_" || includesSub e "mass_update_") = true) :
    e ≠ "" := by
  intro he
  subst he
  simp [includesSub, listContainsSub, listHasPrefix] at h

/-! ## C8 — the background sweep -/

/-- **C8**: the background sweep (period 30 s) removes exactly the
pending-delete entries captured more than 5 s before `now` and keeps every
younger entry; it emits nothing, and a sweep step changes nothing but the
pending-delete store (the scheduled tasks survive, and the step's event
stream is exactly that of the finalize timers that happened to be due,
none of it attributable to the sweep). -/
theorem sweep_discards_only_stale_and_never_emits (now : Nat) (st : Store) (s : EngineState) :
    (sweepStore now st).1 = st.filter (fun e => now - e.2.timestamp ≤ staleThresholdMs)
    ∧ eventsOf (sweepStore now st).2 = []
    ∧ (stepA now .sweep s).1.tasks = (fireDue now s).1.tasks
    ∧ eventsOf (stepA now .sweep s).2 = eventsOf (fireDue now s).2
    ∧ sweepIntervalMs = 30000 ∧ staleThresholdMs = 5000 := by
  have main : ∀ st' : Store,
      (sweepStore now st').1 = st'.filter (fun e => now - e.2.timestamp ≤ staleThresholdMs)
      ∧ eventsOf (sweepStore now st').2 = [] := by
    intro st'
    induction st' with
    | nil => exact ⟨rfl, rfl⟩
    | cons e rest ih =>
        by_cases h : now - e.2.timestamp > staleThresholdMs
        · have h' : ¬ (now - e.2.timestamp ≤ staleThresholdMs) := Nat.not_le.mpr h
          simp only [sweepStore, if_pos h, List.filter_cons]
          simp only [h', decide_eq_true_eq, if_false, decide_eq_false_iff_not]
          refine ⟨ih.1, ?_⟩
          simpa [eventsOf] using ih.2
        · have h' : now - e.2.timestamp ≤ staleThresholdMs := Nat.not_lt.mp h
          simp only [sweepStore, if_neg h, List.filter_cons]
          simp only [h', decide_eq_true_eq, if_true, decide_eq_true]
          refine ⟨by rw [ih.1], ?_⟩
          simpa [eventsOf] using ih.2
  refine ⟨(main st).1, (main st).2, rfl, ?_, rfl, rfl⟩
  show eventsOf ((fireDue now s).2 ++ (sweepStore now (fireDue now s).1.recentDeletes).2)
        = eventsOf (fireDue now s).2
  rw [eventsOf_append, (main (fireDue now s).1.recentDeletes).2, List.append_nil]

/-! ## C5 — malformed JSON -/

/-- **C5** counterexample: a message whose value bytes fail to parse emits
no canonical event at all — in particular not the claimed single
PARSE_ERROR event with its per-event counter increment; the code only
logs a warning and records a `(unknown, parse_error)` duration
observation. -/
theorem parse_failure_counterexample :
    eventsOf (processCDCMessage 0 ⟨.absent, none⟩ initState).2 = []
    ∧ (processCDCMessage 0 ⟨.absent, none⟩ initState).2
        = [.kafkaMsg, .timerObs "unknown" "parse_error"] :=
  ⟨rfl, rfl⟩

/-- **C5** (amended): on a value that fails to parse as JSON the engine
emits no canonical event (so no PARSE_ERROR counter increment or log
record); it records exactly one duration observation labelled
`(unknown, parse_error)` plus the consumed-message counter, invokes no
normalizer (no event of any kind), does not reach the outer catch, leaves
the state untouched, and the next message is processed exactly as it would
have been. -/
theorem parse_failure_is_silent (now now' : Nat) (k : MsgKey) (s : EngineState)
    (msg' : RawMessage) :
    eventsOf (processCDCMessage now ⟨k, none⟩ s).2 = []
    ∧ (processCDCMessage now ⟨k, none⟩ s).2
        = [.kafkaMsg, .timerObs "unknown" "parse_error"]
    ∧ (processCDCMessage now ⟨k, none⟩ s).1 = s
    ∧ Item.kafkaError ∉ (processCDCMessage now ⟨k, none⟩ s).2
    ∧ processCDCMessage now' msg' (processCDCMessage now ⟨k, none⟩ s).1
        = processCDCMessage now' msg' s := by
  refine ⟨rfl, rfl, rfl, ?_, rfl⟩
  simp [processCDCMessage]

/-! ## C6 — simple-protocol classification and type mapping -/

/-- A payload with a truthy field cannot be the JS `null` value. -/
theorem isNullV_eq_false_of_truthy_field {p : JVal} {f : String}
    (h : jsTruthyO (jsGet p f) = true) : isNullV p = false := by
  cases p with
  | null => exfalso; simp [jsGet, jsTruthyO] at h
  | bool b => rfl
  | num n => rfl
  | str s => rfl
  | arr xs => rfl
  | obj fs => rfl

/-- A payload with a present field cannot be the JS `null` value. -/
theorem isNullV_eq_false_of_present_field {p : JVal} {f : String}
    (h : (jsGet p f).isSome = true) : isNullV p = false := by
  cases p with
  | null => exfalso; simp [jsGet] at h
  | bool b => rfl
  | num n => rfl
  | str s => rfl
  | arr xs => rfl
  | obj fs => rfl

theorem strictEqOpt_num_false {o : Option JVal} {m : Int}
    (h : o ≠ some (.num m)) : strictEqOpt o (some (.num m)) = false := by
  cases o with
  | none => rfl
  | some v =>
      cases v with
      | num n =>
          have hn : n ≠ m := fun hn => h (by rw [hn])
          simp [strictEqOpt, hn]
      | null => rfl
      | bool b => rfl
      | str t => rfl
      | arr xs => rfl
      | obj fs => rfl

/-- The `data.email` field is absent, falsy, or a string, so the heuristic
check of source lines 227-231 cannot make `.includes` throw. -/
def emailOkB (d : JVal) : Bool :=
  match jsGet d "email" with
  | some (.str _) => true
  | some v => !jsTruthy v
  | none => true

/-- Under `emailOkB` the heuristic always resolves (never throws). -/
theorem simpleHeuristic_isSome {op : String} {d : JVal} (h : emailOkB d = true) :
    (simpleHeuristic op d).isSome = true := by
  unfold simpleHeuristic
  by_cases hc : (op == "INSERT" && jsTruthyO (jsGet d "email")) = true
  · rw [if_pos hc]
    unfold emailOkB at h
    cases he : jsGet d "email" with
    | none => rw [he] at hc; simp [jsTruthyO] at hc
    | some v =>
        rw [he] at h hc
        cases v with
        | str e => simp
        | null => simp [jsTruthyO, jsTruthy] at hc
        | bool b =>
            simp only [Bool.not_eq_true'] at h
            simp [jsTruthy] at h
            simp [jsTruthyO, jsTruthy, h] at hc
        | num n =>
            simp only [Bool.not_eq_true', jsTruthy, bne, Bool.not_eq_false'] at h
            simp [jsTruthyO, jsTruthy, bne, beq_iff_eq.mp h] at hc
        | arr xs => simp [jsTruthy] at h
        | obj fs => simp [jsTruthy] at h
  · rw [if_neg hc]; simp

/-- Reduction of `processCDCMessage` on the simple-protocol path. -/
theorem processCDCMessage_simple {payload : JVal} {op : String}
    (now : Nat) (k : MsgKey) (s : EngineState)
    (hns : isNullV payload = false)
    (hsimp : isSimpleProtocol payload = true)
    (hop : simpleHeuristic (simpleOpType payload) (simpleData payload) = some op) :
    processCDCMessage now ⟨k, some payload⟩ s
      = (s, [.emit .simple ⟨tableNameOf k payload, op, some (simpleData payload),
                            simpleOldData payload⟩,
             .kafkaMsg, .timerObs (tableNameOf k payload) (timerOp payload)]) := by
  simp only [processCDCMessage, hns, hsimp, hop, Bool.false_eq_true, if_false, if_true]

/-- **C6** counterexample: the payload
`{schema: "", table: "users", type: 0}` carries non-absent `schema`,
`table` and `type` fields at top level, yet the engine does not classify
it as Simple-Protocol (the check uses JS truthiness, and `""` is falsy);
it falls through to the split-update path and emits a single `unknown`
event rather than an INSERT. -/
theorem simple_classification_counterexample :
    (jsGet (.obj [("schema", .str ""), ("table", .str "users"), ("type", .num 0)]) "schema").isSome = true
    ∧ (jsGet (.obj [("schema", .str ""), ("table", .str "users"), ("type", .num 0)]) "table").isSome = true
    ∧ (jsGet (.obj [("schema", .str ""), ("table", .str "users"), ("type", .num 0)]) "type").isSome = true
    ∧ isSimpleProtocol (.obj [("schema", .str ""), ("table", .str "users"), ("type", .num 0)]) = false
    ∧ eventsOf (processCDCMessage 0
        ⟨.absent, some (.obj [("schema", .str ""), ("table", .str "users"), ("type", .num 0)])⟩
        initState).2
      = [⟨"users", "unknown",
          some (.obj [("schema", .str ""), ("table", .str "users"), ("type", .num 0)]), none⟩] :=
  ⟨rfl, rfl, rfl, rfl, rfl⟩

/-- **C6** (amended): a parsed payload is classified Simple-Protocol iff
`schema` and `table` are truthy (present and not `""`/`0`/`false`/`null`)
and `type` is present; on that path the resolved operation maps
`0→INSERT, 1→UPDATE, 2→DELETE` and any other `type` value to `unknown`,
and — provided the heuristic's `email` probe cannot throw — exactly one
canonical event is produced and the state is untouched. -/
theorem simple_classification_and_mapping (payload : JVal) (k : MsgKey)
    (now : Nat) (s : EngineState)
    (hs : jsTruthyO (jsGet payload "schema") = true)
    (ht : jsTruthyO (jsGet payload "table") = true)
    (hty : (jsGet payload "type").isSome = true)
    (hemail : emailOkB (simpleData payload) = true) :
    isSimpleProtocol payload = true
    ∧ (jsGet payload "type" = some (.num 0) → simpleOpType payload = "INSERT")
    ∧ (jsGet payload "type" = some (.num 1) → simpleOpType payload = "UPDATE")
    ∧ (jsGet payload "type" = some (.num 2) → simpleOpType payload = "DELETE")
    ∧ ((∀ n : Int, jsGet payload "type" = some (.num n) → n ≠ 0 ∧ n ≠ 1 ∧ n ≠ 2) →
        simpleOpType payload = "unknown")
    ∧ (eventsOf (processCDCMessage now ⟨k, some payload⟩ s).2).length = 1
    ∧ (processCDCMessage now ⟨k, some payload⟩ s).1 = s := by
  have hsimp : isSimpleProtocol payload = true := by
    simp [isSimpleProtocol, hs, ht, hty]
  have hns : isNullV payload = false := isNullV_eq_false_of_truthy_field hs
  obtain ⟨op, hop⟩ := Option.isSome_iff_exists.mp
    (@simpleHeuristic_isSome (simpleOpType payload) (simpleData payload) hemail)
  have hred := processCDCMessage_simple now k s hns hsimp hop
  refine ⟨hsimp, ?_, ?_, ?_, ?_, by rw [hred]; rfl, by rw [hred]⟩
  · intro h0; simp [simpleOpType, h0, strictEqOpt]
  · intro h1; simp [simpleOpType, h1, strictEqOpt]
  · intro h2; simp [simpleOpType, h2, strictEqOpt]
  · intro hother
    have h0 : jsGet payload "type" ≠ some (.num 0) :=
      fun h => (hother 0 h).1 rfl
    have h1 : jsGet payload "type" ≠ some (.num 1) :=
      fun h => (hother 1 h).2.1 rfl
    have h2 : jsGet payload "type" ≠ some (.num 2) :=
      fun h => (hother 2 h).2.2 rfl
    simp [simpleOpType, strictEqOpt_num_false h0, strictEqOpt_num_false h1,
          strictEqOpt_num_false h2]

/-- Witness for the amended C6 at a concrete DELETE payload. -/
theorem simple_classification_and_mapping_witness :
    isSimpleProtocol (.obj [("schema", .str "testdb"), ("table", .str "users"),
        ("type", .num 2), ("data", .obj [("id", .num 1)])]) = true
    ∧ simpleOpType (.obj [("schema", .str "testdb"), ("table", .str "users"),
        ("type", .num 2), ("data", .obj [("id", .num 1)])]) = "DELETE" := by
  have h := simple_classification_and_mapping
    (.obj [("schema", .str "testdb"), ("table", .str "users"),
           ("type", .num 2), ("data", .obj [("id", .num 1)])])
    .absent 0 initState rfl rfl rfl rfl
  exact ⟨h.1, h.2.2.2.1 rfl⟩

/-! ## C4 and C7 — the Canal-array path and the email heuristic -/

namespace Canal

/-- Spec-side description of the heuristic trigger on one row: a truthy
string `email` containing `updated_` or `mass_update_`. -/
def emailHeurB (row : JVal) : Bool :=
  match jsGet row "email" with
  | some (.str e) => e != "" && (includesSub e "updated_" || includesSub e "mass_update_")
  | _ => false

/-- The row's `email` field is absent, falsy, or a string (so the
heuristic probe cannot throw). -/
def emailShapeOk (row : JVal) : Bool :=
  match jsGet row "email" with
  | some (.str _) => true
  | some v => !jsTruthy v
  | none => true

/-- The row cannot make the loop body throw for the given (string) tag:
for an `INSERT` tag the row must not be `null` and its `email`, if truthy,
must be a string; any other string tag dereferences nothing. -/
def rowOkB (tyS : String) (row : JVal) : Bool :=
  if tyS = "INSERT" then !isNullV row && emailShapeOk row else true

/-- The operation resolved for one row: the payload's tag, except that the
email heuristic rewrites `INSERT` to `UPDATE`. -/
def canalRowOp (tyS : String) (row : JVal) : String :=
  if tyS = "INSERT" && emailHeurB row then "UPDATE" else tyS

theorem rowOp_eq {tyS : String} {row : JVal} (h : rowOkB tyS row = true) :
    rowOp (.str tyS) row = some (canalRowOp tyS row) := by
  by_cases hI : tyS = "INSERT"
  case neg =>
    have e1 : strictEqOpt (some (.str tyS)) (some (.str "INSERT")) = false := by
      simp [strictEqOpt, hI]
    simp [rowOp, canalRowOp, e1, hI]
  case pos =>
    subst hI
    rw [rowOkB, if_pos rfl] at h
    simp only [Bool.and_eq_true, Bool.not_eq_true'] at h
    obtain ⟨hnull, hshape⟩ := h
    cases he : jsGet row "email" with
    | none => simp [rowOp, canalRowOp, emailHeurB, strictEqOpt, hnull, he, jsTruthyO]
    | some v =>
        cases v with
        | str e =>
            by_cases hne : e = ""
            · subst hne
              simp [rowOp, canalRowOp, emailHeurB, strictEqOpt, hnull, he, jsTruthyO, jsTruthy]
            · simp [rowOp, canalRowOp, emailHeurB, strictEqOpt, hnull, he, jsTruthyO,
                    jsTruthy, hne]
        | null => simp [rowOp, canalRowOp, emailHeurB, strictEqOpt, hnull, he, jsTruthyO, jsTruthy]
        | bool b =>
            have hb : b = false := by simpa [emailShapeOk, he, jsTruthy] using hshape
            subst hb
            simp [rowOp, canalRowOp, emailHeurB, strictEqOpt, hnull, he, jsTruthyO, jsTruthy]
        | num n =>
            have hn : n = 0 := by simpa [emailShapeOk, he, jsTruthy] using hshape
            subst hn
            simp [rowOp, canalRowOp, emailHeurB, strictEqOpt, hnull, he, jsTruthyO, jsTruthy]
        | arr xs => exfalso; simp [emailShapeOk, he, jsTruthy] at hshape
        | obj fs => exfalso; simp [emailShapeOk, he, jsTruthy] at hshape

theorem rowsLoop_eq {tyS : String} {rows : List JVal} (tN : String)
    (h : ∀ row ∈ rows, rowOkB tyS row = true) :
    rowsLoop tN (.str tyS) rows
      = (rows.map (fun row => Item.emit .canal ⟨tN, canalRowOp tyS row, some row, none⟩),
         false) := by
  induction rows with
  | nil => rfl
  | cons r rest ih =>
      have hr := rowOp_eq (h r (List.mem_cons_self r rest))
      have hrest := ih (fun row hm => h row (List.mem_cons_of_mem r hm))
      simp [rowsLoop, hr, hrest]

/-- Reduction of the Canal consumer on an array payload with a truthy
string tag and throw-free rows. -/
theorem processCDCMessage_array {payload : JVal} {rows : List JVal} {tyS : String}
    (k : MsgKey)
    (hdata : jsGet payload "data" = some (.arr rows))
    (hty : jsGet payload "type" = some (.str tyS))
    (htyne : tyS ≠ "")
    (hrows : ∀ row ∈ rows, rowOkB tyS row = true) :
    processCDCMessage ⟨k, some payload⟩
      = rows.map (fun row => Item.emit .canal
          ⟨resolvedTable payload, canalRowOp tyS row, some row, none⟩)
        ++ [.kafkaMsg, .timerObs (resolvedTable payload) (timerOp payload)] := by
  have hns : isNullV payload = false :=
    isNullV_eq_false_of_present_field (by rw [hdata]; rfl)
  have hop : splitOpVal payload = .str tyS := by
    simp [splitOpVal, hty, jsTruthy, htyne]
  simp only [processCDCMessage, hns, Bool.false_eq_true, if_false, hdata, hop,
             rowsLoop_eq (resolvedTable payload) hrows]

end Canal

/-- **C4** counterexample: a Canal-array payload with tag `INSERT` and two
rows, the first of which matches the email heuristic, emits events that do
not all carry the payload's operation — the first row is emitted as
UPDATE while `payload.type` is `INSERT`. -/
theorem canal_shared_operation_counterexample :
    jsGet (.obj [("table", .str "users"), ("type", .str "INSERT"),
        ("data", .arr [.obj [("email", .str "updated_a@x.com")], .obj [("id", .num 2)]])]) "type"
      = some (.str "INSERT")
    ∧ eventsOf (Canal.processCDCMessage ⟨.absent,
        some (.obj [("table", .str "users"), ("type", .str "INSERT"),
          ("data", .arr [.obj [("email", .str "updated_a@x.com")], .obj [("id", .num 2)]])])⟩)
      = [⟨"users", "UPDATE", some (.obj [("email", .str "updated_a@x.com")]), none⟩,
         ⟨"users", "INSERT", some (.obj [("id", .num 2)]), none⟩] :=
  ⟨rfl, rfl⟩

/-- **C4** (amended): for a Canal-array payload whose `data` is an array of
N rows and whose tag is a non-empty string, provided no row makes the loop
throw (for `INSERT` tags: rows are not `null` and truthy `email` fields
are strings), the engine emits exactly N canonical events, one per row in
order, all sharing the payload's table, each carrying that row as its
`data` and the payload's operation — except that a row matching the
`updated_`/`mass_update_` email heuristic is reclassified from INSERT to
UPDATE. -/
theorem canal_array_one_event_per_row (payload : JVal) (rows : List JVal)
    (tyS : String) (k : MsgKey)
    (hdata : jsGet payload "data" = some (.arr rows))
    (hty : jsGet payload "type" = some (.str tyS))
    (htyne : tyS ≠ "")
    (hrows : ∀ row ∈ rows, Canal.rowOkB tyS row = true) :
    eventsOf (Canal.processCDCMessage ⟨k, some payload⟩)
      = rows.map (fun row =>
          ⟨resolvedTable payload, Canal.canalRowOp tyS row, some row, none⟩)
    ∧ (eventsOf (Canal.processCDCMessage ⟨k, some payload⟩)).length = rows.length := by
  have hred := Canal.processCDCMessage_array k hdata hty htyne hrows
  have hev : eventsOf (Canal.processCDCMessage ⟨k, some payload⟩)
      = rows.map (fun row =>
          ⟨resolvedTable payload, Canal.canalRowOp tyS row, some row, none⟩) := by
    rw [hred, eventsOf_append]
    have : ∀ rs : List JVal,
        eventsOf (rs.map (fun row => Item.emit .canal
          ⟨resolvedTable payload, Canal.canalRowOp tyS row, some row, none⟩))
        = rs.map (fun row =>
            ⟨resolvedTable payload, Canal.canalRowOp tyS row, some row, none⟩) := by
      intro rs
      induction rs with
      | nil => rfl
      | cons r rest ih => simp only [List.map_cons, eventsOf, List.filterMap_cons] at ih ⊢; rw [ih]
    rw [this]
    simp [eventsOf]
  exact ⟨hev, by rw [hev, List.length_map]⟩

/-- Witness for the amended C4: a two-row DELETE-tagged Canal payload
yields exactly its two per-row events. -/
theorem canal_array_one_event_per_row_witness :
    eventsOf (Canal.processCDCMessage ⟨.absent,
        some (.obj [("table", .str "users"), ("type", .str "DELETE"),
          ("data", .arr [.obj [("id", .num 1)], .obj [("id", .num 2)]])])⟩)
      = [⟨"users", "DELETE", some (.obj [("id", .num 1)]), none⟩,
         ⟨"users", "DELETE", some (.obj [("id", .num 2)]), none⟩] := by
  have h := canal_array_one_event_per_row
    (.obj [("table", .str "users"), ("type", .str "DELETE"),
           ("data", .arr [.obj [("id", .num 1)], .obj [("id", .num 2)]])])
    [.obj [("id", .num 1)], .obj [("id", .num 2)]] "DELETE" .absent
    rfl rfl (by decide) (by intro row hm; fin_cases hm <;> rfl)
  rw [h.1]; rfl

/-- **C7**: on both the Simple-Protocol path and the Canal-Array path, a
row whose resolved operation is INSERT and whose string `email` contains
`updated_` or `mass_update_` is emitted exactly once, reclassified as
UPDATE.  On the simple path the message yields the single reclassified
event; on the Canal path the loop emits one event per row and applies the
heuristic to each row independently (`canalRowOp`), so exactly the
matching rows carry UPDATE. -/
theorem insert_email_heuristic_reclassifies :
    (∀ (payload : JVal) (k : MsgKey) (now : Nat) (s : EngineState) (e : String),
      isSimpleProtocol payload = true →
      simpleOpType payload = "INSERT" →
      jsGet (simpleData payload) "email" = some (.str e) →
      (includesSub e "updated_" || includesSub e "mass_update_") = true →
      eventsOf (processCDCMessage now ⟨k, some payload⟩ s).2
        = [⟨tableNameOf k payload, "UPDATE", some (simpleData payload),
            simpleOldData payload⟩])
    ∧ (∀ (payload : JVal) (k : MsgKey) (rows : List JVal) (tyS : String),
      jsGet payload "data" = some (.arr rows) →
      jsGet payload "type" = some (.str tyS) →
      tyS ≠ "" →
      (∀ row ∈ rows, Canal.rowOkB tyS row = true) →
      eventsOf (Canal.processCDCMessage ⟨k, some payload⟩)
        = rows.map (fun row =>
            ⟨resolvedTable payload, Canal.canalRowOp tyS row, some row, none⟩)
      ∧ ∀ row ∈ rows, (tyS = "INSERT" && Canal.emailHeurB row) = true →
          Canal.canalRowOp tyS row = "UPDATE") := by
  constructor
  · intro payload k now s e hsimp hopI hemail hmatch
    have hs : jsTruthyO (jsGet payload "schema") = true := by
      have h2 := hsimp
      simp only [isSimpleProtocol, Bool.and_eq_true] at h2
      exact h2.1.1
    have hns : isNullV payload = false := isNullV_eq_false_of_truthy_field hs
    have hne : e ≠ "" := ne_empty_of_heuristic hmatch
    have hop : simpleHeuristic (simpleOpType payload) (simpleData payload)
        = some "UPDATE" := by
      rw [hopI]
      unfold simpleHeuristic
      rw [hemail]
      simp [jsTruthyO, jsTruthy, hne, hmatch]
    rw [processCDCMessage_simple now k s hns hsimp hop]
    rfl
  · intro payload k rows tyS hdata hty htyne hrows
    have hred := Canal.processCDCMessage_array k hdata hty htyne hrows
    constructor
    · rw [hred, eventsOf_append]
      have : ∀ rs : List JVal,
          eventsOf (rs.map (fun row => Item.emit .canal
            ⟨resolvedTable payload, Canal.canalRowOp tyS row, some row, none⟩))
          = rs.map (fun row =>
              ⟨resolvedTable payload, Canal.canalRowOp tyS row, some row, none⟩) := by
        intro rs
        induction rs with
        | nil => rfl
        | cons r rest ih =>
            simp only [List.map_cons, eventsOf, List.filterMap_cons] at ih ⊢
            rw [ih]
      rw [this]
      simp [eventsOf]
    · intro row _ hmatch
      unfold Canal.canalRowOp
      rw [if_pos hmatch]

/-- Witness for C7: the simple-protocol INSERT with
`email = "updated_42@x.com"` is emitted once as UPDATE, and a one-row
Canal INSERT payload with the same email yields the single UPDATE row
event. -/
theorem insert_email_heuristic_reclassifies_witness :
    eventsOf (processCDCMessage 0 ⟨.absent,
        some (.obj [("schema", .str "testdb"), ("table", .str "users"), ("type", .num 0),
          ("data", .obj [("id", .num 1), ("email", .str "updated_42@x.com")])])⟩
        initState).2
      = [⟨"users", "UPDATE",
          some (.obj [("id", .num 1), ("email", .str "updated_42@x.com")]), none⟩]
    ∧ eventsOf (Canal.processCDCMessage ⟨.absent,
        some (.obj [("table", .str "users"), ("type", .str "INSERT"),
          ("data", .arr [.obj [("email", .str "updated_42@x.com")]])])⟩)
      = [⟨"users", "UPDATE", some (.obj [("email", .str "updated_42@x.com")]), none⟩] := by
  constructor
  · have h := insert_email_heuristic_reclassifies.1
      (.obj [("schema", .str "testdb"), ("table", .str "users"), ("type", .num 0),
        ("data", .obj [("id", .num 1), ("email", .str "updated_42@x.com")])])
      .absent 0 initState "updated_42@x.com" rfl rfl rfl (by decide)
    rw [h]; rfl
  · have h := (insert_email_heuristic_reclassifies.2
      (.obj [("table", .str "users"), ("type", .str "INSERT"),
        ("data", .arr [.obj [("email", .str "updated_42@x.com")]])])
      .absent [.obj [("email", .str "updated_42@x.com")]] "INSERT"
      rfl rfl (by decide) (by intro row hm; fin_cases hm; rfl)).1
    rw [h]; rfl

/-! ## C9 — other operation tags on the split-update path -/

/-- **C9** counterexample: the payload `{table:"users", type: 5,
commitTs: 1}` reaches the pass-through branch with a truthy non-string
tag; `operationType.toLowerCase()` throws, the outer catch swallows it,
and zero events are emitted — not the claimed single as-is/UNKNOWN
event. -/
theorem unknown_tag_counterexample :
    eventsOf (processCDCMessage 0 ⟨.absent,
        some (.obj [("table", .str "users"), ("type", .num 5), ("commitTs", .num 1)])⟩
        initState).2 = []
    ∧ (processCDCMessage 0 ⟨.absent,
        some (.obj [("table", .str "users"), ("type", .num 5), ("commitTs", .num 1)])⟩
        initState).2 = catchItems
    ∧ (processCDCMessage 0 ⟨.absent,
        some (.obj [("table", .str "users"), ("type", .num 5), ("commitTs", .num 1)])⟩
        initState).1 = initState :=
  ⟨rfl, rfl, rfl⟩

/-- **C9** (amended): a payload reaching the pass-through path (not
Simple-Protocol, tag not WATERMARK/BOOTSTRAP and neither INSERT nor
DELETE) never aborts processing: the state is unchanged either way.  When
the resolved tag is a string it is emitted as exactly one event carrying
the tag as-is (`'unknown'` having been substituted for an absent or falsy
tag before this point); when the tag is truthy but not a string, the
`.toLowerCase()` call throws, the outer catch absorbs it and zero events
are emitted. -/
theorem passthrough_tag_behaviour (payload : JVal) (k : MsgKey) (now : Nat)
    (s : EngineState)
    (hns : isNullV payload = false)
    (hsimp : isSimpleProtocol payload = false)
    (hwm : strictEqOpt (jsGet payload "type") (some (.str "WATERMARK")) = false)
    (hbs : strictEqOpt (jsGet payload "type") (some (.str "BOOTSTRAP")) = false)
    (hdel : strictEqOpt (some (splitOpVal payload)) (some (.str "DELETE")) = false)
    (hins : strictEqOpt (some (splitOpVal payload)) (some (.str "INSERT")) = false) :
    (processCDCMessage now ⟨k, some payload⟩ s).1 = s
    ∧ (∀ sOp : String, splitOpVal payload = .str sOp →
        eventsOf (processCDCMessage now ⟨k, some payload⟩ s).2
          = [⟨tableNameOf k payload, sOp, some payload, none⟩])
    ∧ ((∀ sOp : String, splitOpVal payload ≠ .str sOp) →
        eventsOf (processCDCMessage now ⟨k, some payload⟩ s).2 = []
        ∧ (processCDCMessage now ⟨k, some payload⟩ s).2 = catchItems) := by
  have hred : processCDCMessage now ⟨k, some payload⟩ s
      = (match splitOpVal payload with
         | .str sOp =>
             (s, [.emit .passthrough ⟨tableNameOf k payload, sOp, some payload, none⟩,
                  .kafkaMsg, .timerObs (tableNameOf k payload) (timerOp payload)])
         | _ => (s, catchItems)) := by
    simp only [processCDCMessage, hns, hsimp, hwm, hbs, hdel, hins,
               Bool.false_eq_true, if_false, Bool.or_self, Bool.false_and]
  refine ⟨?_, ?_, ?_⟩
  · rw [hred]
    cases splitOpVal payload <;> rfl
  · intro sOp hsop
    rw [hred, hsop]
    rfl
  · intro hnostr
    rw [hred]
    cases hv : splitOpVal payload with
    | str sOp => exact absurd hv (hnostr sOp)
    | null => exact ⟨rfl, rfl⟩
    | bool b => exact ⟨rfl, rfl⟩
    | num n => exact ⟨rfl, rfl⟩
    | arr xs => exact ⟨rfl, rfl⟩
    | obj fs => exact ⟨rfl, rfl⟩

/-- Witness for the amended C9: the string tag `"FOO"` is emitted as-is,
exactly once, with the processing state untouched. -/
theorem passthrough_tag_behaviour_witness :
    (processCDCMessage 0 ⟨.absent, some (.obj [("table", .str "users"),
        ("type", .str "FOO")])⟩ initState).1 = initState
    ∧ eventsOf (processCDCMessage 0 ⟨.absent, some (.obj [("table", .str "users"),
        ("type", .str "FOO")])⟩ initState).2
      = [⟨"users", "FOO", some (.obj [("table", .str "users"), ("type", .str "FOO")]), none⟩] := by
  have h := passthrough_tag_behaviour
    (.obj [("table", .str "users"), ("type", .str "FOO")]) .absent 0 initState
    rfl rfl rfl rfl rfl rfl
  exact ⟨h.1, h.2.1 "FOO" rfl⟩

/-! ## Split-update scenarios — builders and step lemmas -/

/-- A split-update DELETE payload `{table, type:"DELETE", old, commitTs}`
(wire shape of §6). -/
def mkDeletePayload (table : String) (old ts : JVal) : JVal :=
  .obj [("table", .str table), ("type", .str "DELETE"), ("old", old), ("commitTs", ts)]

/-- A split-update INSERT payload `{table, type:"INSERT", data, commitTs}`. -/
def mkInsertPayload (table : String) (d ts : JVal) : JVal :=
  .obj [("table", .str table), ("type", .str "INSERT"), ("data", d), ("commitTs", ts)]

/-- The DELETE message, delivered without a Kafka key. -/
def mkDeleteMsg (table : String) (old ts : JVal) : RawMessage :=
  ⟨.absent, some (mkDeletePayload table old ts)⟩

/-- The INSERT message, delivered without a Kafka key. -/
def mkInsertMsg (table : String) (d ts : JVal) : RawMessage :=
  ⟨.absent, some (mkInsertPayload table d ts)⟩

/-- The composite correlation key `table_recordId`. -/
def deleteKeyOf (table : String) (rid : JVal) : String :=
  table ++ "_" ++ jsToString rid

@[simp] theorem jsGet_obj (fs : List (String × JVal)) (k : String) :
    jsGet (.obj fs) k = List.lookup k fs := rfl

@[simp] theorem jsTruthyO_some (v : JVal) : jsTruthyO (some v) = jsTruthy v := rfl

@[simp] theorem jsTruthyO_none : jsTruthyO none = false := rfl

@[simp] theorem jsTruthy_str (s : String) : jsTruthy (.str s) = (s != "") := rfl

@[simp] theorem jsTruthy_obj (fs : List (String × JVal)) : jsTruthy (.obj fs) = true := rfl

@[simp] theorem jsTruthy_arr (xs : List JVal) : jsTruthy (.arr xs) = true := rfl

@[simp] theorem isNullV_obj (fs : List (String × JVal)) : isNullV (.obj fs) = false := rfl

@[simp] theorem jsToString_str (s : String) : jsToString (.str s) = s := by
  simp [jsToString]

@[simp] theorem strictEqOpt_str_str (a b : String) :
    strictEqOpt (some (.str a)) (some (.str b)) = (a == b) := rfl

theorem fireDue_nil (now : Nat) (st : Store) :
    fireDue now ⟨st, []⟩ = (⟨st, []⟩, []) := rfl

theorem fireDue_single_notdue (now : Nat) (t : FinalizeTask) (st : Store)
    (h : ¬ t.due ≤ now) :
    fireDue now ⟨st, [t]⟩ = (⟨st, [t]⟩, []) := by
  simp [fireDue, fireDueAux, h]

theorem fireDue_single_due (now : Nat) (t : FinalizeTask) (st : Store)
    (h : t.due ≤ now) :
    fireDue now ⟨st, [t]⟩ = (⟨(runTask t st).1, []⟩, (runTask t st).2) := by
  simp [fireDue, fireDueAux, h]

theorem runTask_absent (t : FinalizeTask) (st : Store)
    (h : mapGet t.deleteKey st = none) :
    runTask t st = (st, []) := by
  simp [runTask, h]

theorem runTask_fires (t : FinalizeTask) (st : Store) (info : PendingDelete)
    (h : mapGet t.deleteKey st = some info)
    (hts : strictEqOpt info.commitTs t.commitTs = true) :
    runTask t st = (mapDelete t.deleteKey st,
      [.emit (.finalize t.deleteKey) ⟨t.tableName, "DELETE", some t.payload, none⟩,
       .delKey t.deleteKey]) := by
  simp [runTask, h, hts]

theorem runTask_mismatch (t : FinalizeTask) (st : Store) (info : PendingDelete)
    (h : mapGet t.deleteKey st = some info)
    (hts : strictEqOpt info.commitTs t.commitTs = false) :
    runTask t st = (st, []) := by
  simp [runTask, h, hts]

/-- Reduction of `processCDCMessage` on a DELETE with an extractable
identity: the pending delete is registered, the finalize timer scheduled,
and nothing emitted. -/
theorem processCDCMessage_delete_track (now : Nat) (table : String) (old ts : JVal)
    (s : EngineState) (htbl : table ≠ "")
    (hrid : isNullV (extractRecordId old) = false) :
    processCDCMessage now (mkDeleteMsg table old ts) s
      = (⟨mapSet (deleteKeyOf table (extractRecordId old)) ⟨some ts, now, old⟩
            s.recentDeletes,
          s.tasks ++ [⟨now + correlationWindowMs, deleteKeyOf table (extractRecordId old),
                       some ts, table, mkDeletePayload table old ts⟩]⟩,
         [.setKey (deleteKeyOf table (extractRecordId old)), .kafkaMsg,
          .timerObs table "delete"]) := by
  have hold : jsTruthy old = true := jsTruthy_of_extract hrid
  have hbt : (table != "") = true := by simpa using htbl
  simp only [processCDCMessage, mkDeleteMsg, mkDeletePayload, deleteKeyOf]
  simp [List.lookup, isSimpleProtocol, splitOpVal, tableNameOf, hold, hrid, hbt]

/-- Reduction of `processCDCMessage` on an INSERT whose identity matches a
pending delete with equal `commitTs`: the claim-by-deletion branch. -/
theorem processCDCMessage_insert_claim (now : Nat) (table : String) (d ts : JVal)
    (s : EngineState) (info : PendingDelete) (htbl : table ≠ "")
    (hrid : isNullV (extractRecordId d) = false)
    (hget : mapGet (deleteKeyOf table (extractRecordId d)) s.recentDeletes = some info)
    (hts : strictEqOpt info.commitTs (some ts) = true) :
    processCDCMessage now (mkInsertMsg table d ts) s
      = (⟨mapDelete (deleteKeyOf table (extractRecordId d)) s.recentDeletes, s.tasks⟩,
         [.delKey (deleteKeyOf table (extractRecordId d)),
          .emit (.updateClaim (deleteKeyOf table (extractRecordId d)))
            ⟨table, "UPDATE", some d, some info.data⟩,
          .kafkaMsg, .timerObs table "update"]) := by
  have hd : jsTruthy d = true := jsTruthy_of_extract hrid
  have hbt : (table != "") = true := by simpa using htbl
  simp only [deleteKeyOf] at hget
  simp only [processCDCMessage, mkInsertMsg, mkInsertPayload, deleteKeyOf]
  simp [List.lookup, isSimpleProtocol, splitOpVal, tableNameOf, hd, hrid, hbt, hget, hts]

/-! ## C1 — DELETE + matching INSERT collapse to one UPDATE -/

/-- **C1**: a DELETE whose old image yields a record identity, followed —
before its 500 ms finalize timer fires — by an INSERT with the same table,
the same identity and a strictly-equal `commitTs`, produces exactly one
UPDATE event whose `oldData` is the captured old image and whose `data` is
the INSERT's row image; the pending entry is gone, the finalize timer
fires later as a no-op, and no DELETE or INSERT event is emitted for the
pair. -/
theorem delete_insert_collapses_to_update
    (table : String) (old d ts rid : JVal) (t0 t1 t2 : Nat)
    (htbl : table ≠ "")
    (hrold : extractRecordId old = rid)
    (hrd : extractRecordId d = rid)
    (hnn : isNullV rid = false)
    (hts : strictEqOpt (some ts) (some ts) = true)
    (h01 : t1 < t0 + correlationWindowMs)
    (h2 : t0 + correlationWindowMs ≤ t2) :
    eventsOf (runA [(t0, .deliver (mkDeleteMsg table old ts)),
                    (t1, .deliver (mkInsertMsg table d ts)),
                    (t2, .idle)] initState).2
      = [⟨table, "UPDATE", some d, some old⟩]
    ∧ (runA [(t0, .deliver (mkDeleteMsg table old ts)),
             (t1, .deliver (mkInsertMsg table d ts)),
             (t2, .idle)] initState).1.recentDeletes = []
    ∧ (runA [(t0, .deliver (mkDeleteMsg table old ts)),
             (t1, .deliver (mkInsertMsg table d ts)),
             (t2, .idle)] initState).1.tasks = [] := by
  have hro : isNullV (extractRecordId old) = false := by rw [hrold]; exact hnn
  have hrdd : isNullV (extractRecordId d) = false := by rw [hrd]; exact hnn
  have h_del := processCDCMessage_delete_track t0 table old ts initState htbl hro
  rw [hrold] at h_del
  have hf0 : fireDue t0 initState = (initState, []) := rfl
  have step1 : stepA t0 (.deliver (mkDeleteMsg table old ts)) initState
      = ((⟨[(deleteKeyOf table rid, ⟨some ts, t0, old⟩)],
           [⟨t0 + correlationWindowMs, deleteKeyOf table rid, some ts, table,
             mkDeletePayload table old ts⟩]⟩ : EngineState),
         [.setKey (deleteKeyOf table rid), .kafkaMsg, .timerObs table "delete"]) := by
    simp only [stepA, hf0]
    rw [h_del]
    simp [initState, mapSet, mapDelete]
  have hget : mapGet (deleteKeyOf table (extractRecordId d))
      ([(deleteKeyOf table rid, ⟨some ts, t0, old⟩)] : Store)
      = some ⟨some ts, t0, old⟩ := by
    rw [hrd]; simp [mapGet]
  have h_ins := processCDCMessage_insert_claim t1 table d ts
      (⟨[(deleteKeyOf table rid, ⟨some ts, t0, old⟩)],
        [⟨t0 + correlationWindowMs, deleteKeyOf table rid, some ts, table,
          mkDeletePayload table old ts⟩]⟩ : EngineState)
      ⟨some ts, t0, old⟩ htbl hrdd hget hts
  rw [hrd] at h_ins
  have hf1 : fireDue t1
      (⟨[(deleteKeyOf table rid, ⟨some ts, t0, old⟩)],
        [⟨t0 + correlationWindowMs, deleteKeyOf table rid, some ts, table,
          mkDeletePayload table old ts⟩]⟩ : EngineState)
      = (⟨[(deleteKeyOf table rid, ⟨some ts, t0, old⟩)],
          [⟨t0 + correlationWindowMs, deleteKeyOf table rid, some ts, table,
            mkDeletePayload table old ts⟩]⟩, []) :=
    fireDue_single_notdue t1 _ _ (Nat.not_le.mpr h01)
  have step2 : stepA t1 (.deliver (mkInsertMsg table d ts))
      (⟨[(deleteKeyOf table rid, ⟨some ts, t0, old⟩)],
        [⟨t0 + correlationWindowMs, deleteKeyOf table rid, some ts, table,
          mkDeletePayload table old ts⟩]⟩ : EngineState)
      = ((⟨[], [⟨t0 + correlationWindowMs, deleteKeyOf table rid, some ts, table,
               mkDeletePayload table old ts⟩]⟩ : EngineState),
         [.delKey (deleteKeyOf table rid),
          .emit (.updateClaim (deleteKeyOf table rid)) ⟨table, "UPDATE", some d, some old⟩,
          .kafkaMsg, .timerObs table "update"]) := by
    simp only [stepA, hf1]
    rw [h_ins]
    simp [mapDelete]
  have step3 : stepA t2 .idle
      (⟨[], [⟨t0 + correlationWindowMs, deleteKeyOf table rid, some ts, table,
             mkDeletePayload table old ts⟩]⟩ : EngineState)
      = ((⟨[], []⟩ : EngineState), []) := by
    simp only [stepA]
    rw [fireDue_single_due t2 _ _ h2,
        runTask_absent ⟨t0 + correlationWindowMs, deleteKeyOf table rid, some ts, table,
          mkDeletePayload table old ts⟩ [] rfl]
  have hrun : runA [(t0, .deliver (mkDeleteMsg table old ts)),
                    (t1, .deliver (mkInsertMsg table d ts)),
                    (t2, .idle)] initState
      = ((⟨[], []⟩ : EngineState),
         [.setKey (deleteKeyOf table rid), .kafkaMsg, .timerObs table "delete",
          .delKey (deleteKeyOf table rid),
          .emit (.updateClaim (deleteKeyOf table rid)) ⟨table, "UPDATE", some d, some old⟩,
          .kafkaMsg, .timerObs table "update"]) := by
    simp only [runA, step1, step2, step3]
    rfl
  rw [hrun]
  exact ⟨rfl, rfl, rfl⟩

/-- Witness for C1: the spec's concrete scenario — `users` id 7, commit
timestamp 100, INSERT 100 ms after the DELETE, idle past the window. -/
theorem delete_insert_collapses_to_update_witness :
    eventsOf (runA [(0, .deliver (mkDeleteMsg "users"
                      (.obj [("id", .num 7), ("email", .str "a@x.com")]) (.num 100))),
                    (100, .deliver (mkInsertMsg "users"
                      (.obj [("id", .num 7), ("email", .str "b@x.com")]) (.num 100))),
                    (600, .idle)] initState).2
      = [⟨"users", "UPDATE", some (.obj [("id", .num 7), ("email", .str "b@x.com")]),
          some (.obj [("id", .num 7), ("email", .str "a@x.com")])⟩] :=
  (delete_insert_collapses_to_update "users"
    (.obj [("id", .num 7), ("email", .str "a@x.com")])
    (.obj [("id", .num 7), ("email", .str "b@x.com")])
    (.num 100) (.num 7) 0 100 600
    (by decide) rfl rfl rfl rfl (by decide) (by decide)).1

/-! ## C3 — unmatched DELETE finalizes as one standalone DELETE -/

theorem fireDue_two (now : Nat) (ta tb : FinalizeTask) (st : Store)
    (ha : ta.due ≤ now) (hb : ¬ tb.due ≤ now) :
    fireDue now ⟨st, [ta, tb]⟩ = (⟨(runTask ta st).1, [tb]⟩, (runTask ta st).2) := by
  simp [fireDue, fireDueAux, ha, hb]

/-- **C3**: a DELETE with an extractable identity and no matching INSERT:
when the 500 ms window has elapsed the finalize timer finds the entry
still present with the same `commitTs`, emits exactly one standalone
DELETE event and removes the entry; a sweep run afterwards emits nothing
further for it. -/
theorem unmatched_delete_finalizes_once
    (table : String) (old ts rid : JVal) (t0 t1 t2 : Nat)
    (htbl : table ≠ "")
    (hrold : extractRecordId old = rid)
    (hnn : isNullV rid = false)
    (hts : strictEqOpt (some ts) (some ts) = true)
    (h1 : t0 + correlationWindowMs ≤ t1)
    (h12 : t1 ≤ t2) :
    eventsOf (runA [(t0, .deliver (mkDeleteMsg table old ts)),
                    (t1, .idle), (t2, .sweep)] initState).2
      = [⟨table, "DELETE", some (mkDeletePayload table old ts), none⟩]
    ∧ (runA [(t0, .deliver (mkDeleteMsg table old ts)),
             (t1, .idle), (t2, .sweep)] initState).1.recentDeletes = []
    ∧ (runA [(t0, .deliver (mkDeleteMsg table old ts)),
             (t1, .idle), (t2, .sweep)] initState).1.tasks = [] := by
  have hro : isNullV (extractRecordId old) = false := by rw [hrold]; exact hnn
  have h_del := processCDCMessage_delete_track t0 table old ts initState htbl hro
  rw [hrold] at h_del
  have hf0 : fireDue t0 initState = (initState, []) := rfl
  have step1 : stepA t0 (.deliver (mkDeleteMsg table old ts)) initState
      = ((⟨[(deleteKeyOf table rid, ⟨some ts, t0, old⟩)],
           [⟨t0 + correlationWindowMs, deleteKeyOf table rid, some ts, table,
             mkDeletePayload table old ts⟩]⟩ : EngineState),
         [.setKey (deleteKeyOf table rid), .kafkaMsg, .timerObs table "delete"]) := by
    simp only [stepA, hf0]
    rw [h_del]
    simp [initState, mapSet, mapDelete]
  have hfires := runTask_fires
      ⟨t0 + correlationWindowMs, deleteKeyOf table rid, some ts, table,
        mkDeletePayload table old ts⟩
      ([(deleteKeyOf table rid, ⟨some ts, t0, old⟩)] : Store)
      ⟨some ts, t0, old⟩ (by simp [mapGet]) hts
  have step2 : stepA t1 .idle
      (⟨[(deleteKeyOf table rid, ⟨some ts, t0, old⟩)],
        [⟨t0 + correlationWindowMs, deleteKeyOf table rid, some ts, table,
          mkDeletePayload table old ts⟩]⟩ : EngineState)
      = ((⟨[], []⟩ : EngineState),
         [.emit (.finalize (deleteKeyOf table rid))
            ⟨table, "DELETE", some (mkDeletePayload table old ts), none⟩,
          .delKey (deleteKeyOf table rid)]) := by
    simp only [stepA]
    rw [fireDue_single_due t1 _ _ h1, hfires]
    simp [mapDelete]
  have step3 : stepA t2 .sweep ((⟨[], []⟩ : EngineState)) = ((⟨[], []⟩ : EngineState), []) := rfl
  have hrun : runA [(t0, .deliver (mkDeleteMsg table old ts)),
                    (t1, .idle), (t2, .sweep)] initState
      = ((⟨[], []⟩ : EngineState),
         [.setKey (deleteKeyOf table rid), .kafkaMsg, .timerObs table "delete",
          .emit (.finalize (deleteKeyOf table rid))
            ⟨table, "DELETE", some (mkDeletePayload table old ts), none⟩,
          .delKey (deleteKeyOf table rid)]) := by
    simp only [runA, step1, step2, step3]
    rfl
  rw [hrun]
  exact ⟨rfl, rfl, rfl⟩

/-- Witness for C3: the same DELETE as in C1, never matched; the finalize
timer at 600 ms emits the one standalone DELETE, and the sweep at 30 s
adds nothing. -/
theorem unmatched_delete_finalizes_once_witness :
    eventsOf (runA [(0, .deliver (mkDeleteMsg "users"
                      (.obj [("id", .num 7), ("email", .str "a@x.com")]) (.num 100))),
                    (600, .idle), (30000, .sweep)] initState).2
      = [⟨"users", "DELETE",
          some (mkDeletePayload "users"
            (.obj [("id", .num 7), ("email", .str "a@x.com")]) (.num 100)), none⟩] :=
  (unmatched_delete_finalizes_once "users"
    (.obj [("id", .num 7), ("email", .str "a@x.com")]) (.num 100) (.num 7)
    0 600 30000 (by decide) rfl rfl rfl (by decide) (by decide)).1

/-! ## C10 — a superseding DELETE silences the first one -/

/-- **C10**: a second DELETE for the same key with a different
`commitTimestamp`, arriving before the first one's finalize timer fires,
overwrites the store entry in place; the first timer then observes the
mismatched timestamp and no-ops, so no event of any kind is ever emitted
for the superseded DELETE — the only emission is the second DELETE's own
finalize event. -/
theorem superseded_delete_is_silent
    (table : String) (old1 old2 ts1 ts2 rid : JVal) (t0 t1 t2 t3 : Nat)
    (htbl : table ≠ "")
    (hrold1 : extractRecordId old1 = rid)
    (hrold2 : extractRecordId old2 = rid)
    (hnn : isNullV rid = false)
    (hmm : strictEqOpt (some ts2) (some ts1) = false)
    (hts2 : strictEqOpt (some ts2) (some ts2) = true)
    (h01 : t1 < t0 + correlationWindowMs)
    (h2a : t0 + correlationWindowMs ≤ t2)
    (h2b : t2 < t1 + correlationWindowMs)
    (h3 : t1 + correlationWindowMs ≤ t3) :
    (runA [(t0, .deliver (mkDeleteMsg table old1 ts1)),
           (t1, .deliver (mkDeleteMsg table old2 ts2))] initState).1.recentDeletes
      = [(deleteKeyOf table rid, ⟨some ts2, t1, old2⟩)]
    ∧ eventsOf (runA [(t0, .deliver (mkDeleteMsg table old1 ts1)),
                      (t1, .deliver (mkDeleteMsg table old2 ts2)),
                      (t2, .idle), (t3, .idle)] initState).2
      = [⟨table, "DELETE", some (mkDeletePayload table old2 ts2), none⟩]
    ∧ (runA [(t0, .deliver (mkDeleteMsg table old1 ts1)),
             (t1, .deliver (mkDeleteMsg table old2 ts2)),
             (t2, .idle), (t3, .idle)] initState).1.recentDeletes = [] := by
  have hro1 : isNullV (extractRecordId old1) = false := by rw [hrold1]; exact hnn
  have hro2 : isNullV (extractRecordId old2) = false := by rw [hrold2]; exact hnn
  have h_del1 := processCDCMessage_delete_track t0 table old1 ts1 initState htbl hro1
  rw [hrold1] at h_del1
  have hf0 : fireDue t0 initState = (initState, []) := rfl
  have step1 : stepA t0 (.deliver (mkDeleteMsg table old1 ts1)) initState
      = ((⟨[(deleteKeyOf table rid, ⟨some ts1, t0, old1⟩)],
           [⟨t0 + correlationWindowMs, deleteKeyOf table rid, some ts1, table,
             mkDeletePayload table old1 ts1⟩]⟩ : EngineState),
         [.setKey (deleteKeyOf table rid), .kafkaMsg, .timerObs table "delete"]) := by
    simp only [stepA, hf0]
    rw [h_del1]
    simp [initState, mapSet, mapDelete]
  have h_del2 := processCDCMessage_delete_track t1 table old2 ts2
      (⟨[(deleteKeyOf table rid, ⟨some ts1, t0, old1⟩)],
        [⟨t0 + correlationWindowMs, deleteKeyOf table rid, some ts1, table,
          mkDeletePayload table old1 ts1⟩]⟩ : EngineState) htbl hro2
  rw [hrold2] at h_del2
  have hf1 : fireDue t1
      (⟨[(deleteKeyOf table rid, ⟨some ts1, t0, old1⟩)],
        [⟨t0 + correlationWindowMs, deleteKeyOf table rid, some ts1, table,
          mkDeletePayload table old1 ts1⟩]⟩ : EngineState)
      = (⟨[(deleteKeyOf table rid, ⟨some ts1, t0, old1⟩)],
          [⟨t0 + correlationWindowMs, deleteKeyOf table rid, some ts1, table,
            mkDeletePayload table old1 ts1⟩]⟩, []) :=
    fireDue_single_notdue t1 _ _ (Nat.not_le.mpr h01)
  have step2 : stepA t1 (.deliver (mkDeleteMsg table old2 ts2))
      (⟨[(deleteKeyOf table rid, ⟨some ts1, t0, old1⟩)],
        [⟨t0 + correlationWindowMs, deleteKeyOf table rid, some ts1, table,
          mkDeletePayload table old1 ts1⟩]⟩ : EngineState)
      = ((⟨[(deleteKeyOf table rid, ⟨some ts2, t1, old2⟩)],
           [⟨t0 + correlationWindowMs, deleteKeyOf table rid, some ts1, table,
             mkDeletePayload table old1 ts1⟩,
            ⟨t1 + correlationWindowMs, deleteKeyOf table rid, some ts2, table,
             mkDeletePayload table old2 ts2⟩]⟩ : EngineState),
         [.setKey (deleteKeyOf table rid), .kafkaMsg, .timerObs table "delete"]) := by
    simp only [stepA, hf1]
    rw [h_del2]
    simp [mapSet, mapDelete]
  have hmiss := runTask_mismatch
      ⟨t0 + correlationWindowMs, deleteKeyOf table rid, some ts1, table,
        mkDeletePayload table old1 ts1⟩
      ([(deleteKeyOf table rid, ⟨some ts2, t1, old2⟩)] : Store)
      ⟨some ts2, t1, old2⟩ (by simp [mapGet]) hmm
  have step3 : stepA t2 .idle
      (⟨[(deleteKeyOf table rid, ⟨some ts2, t1, old2⟩)],
         [⟨t0 + correlationWindowMs, deleteKeyOf table rid, some ts1, table,
           mkDeletePayload table old1 ts1⟩,
          ⟨t1 + correlationWindowMs, deleteKeyOf table rid, some ts2, table,
           mkDeletePayload table old2 ts2⟩]⟩ : EngineState)
      = ((⟨[(deleteKeyOf table rid, ⟨some ts2, t1, old2⟩)],
           [⟨t1 + correlationWindowMs, deleteKeyOf table rid, some ts2, table,
             mkDeletePayload table old2 ts2⟩]⟩ : EngineState), []) := by
    simp only [stepA]
    rw [fireDue_two t2 _ _ _ h2a (Nat.not_le.mpr h2b), hmiss]
  have hfires := runTask_fires
      ⟨t1 + correlationWindowMs, deleteKeyOf table rid, some ts2, table,
        mkDeletePayload table old2 ts2⟩
      ([(deleteKeyOf table rid, ⟨some ts2, t1, old2⟩)] : Store)
      ⟨some ts2, t1, old2⟩ (by simp [mapGet]) hts2
  have step4 : stepA t3 .idle
      (⟨[(deleteKeyOf table rid, ⟨some ts2, t1, old2⟩)],
         [⟨t1 + correlationWindowMs, deleteKeyOf table rid, some ts2, table,
           mkDeletePayload table old2 ts2⟩]⟩ : EngineState)
      = ((⟨[], []⟩ : EngineState),
         [.emit (.finalize (deleteKeyOf table rid))
            ⟨table, "DELETE", some (mkDeletePayload table old2 ts2), none⟩,
          .delKey (deleteKeyOf table rid)]) := by
    simp only [stepA]
    rw [fireDue_single_due t3 _ _ h3, hfires]
    simp [mapDelete]
  refine ⟨?_, ?_, ?_⟩
  · simp only [runA, step1, step2]
  · simp only [runA, step1, step2, step3, step4]
    rfl
  · simp only [runA, step1, step2, step3, step4]

/-- Witness for C10: two DELETEs for `users` id 7 with timestamps 100 and
200, 100 ms apart; only the second surfaces, as a standalone DELETE. -/
theorem superseded_delete_is_silent_witness :
    eventsOf (runA [(0, .deliver (mkDeleteMsg "users"
                      (.obj [("id", .num 7)]) (.num 100))),
                    (100, .deliver (mkDeleteMsg "users"
                      (.obj [("id", .num 7)]) (.num 200))),
                    (550, .idle), (700, .idle)] initState).2
      = [⟨"users", "DELETE",
          some (mkDeletePayload "users" (.obj [("id", .num 7)]) (.num 200)), none⟩] :=
  (superseded_delete_is_silent "users"
    (.obj [("id", .num 7)]) (.obj [("id", .num 7)]) (.num 100) (.num 200) (.num 7)
    0 100 550 700 (by decide) rfl rfl rfl (by decide) rfl
    (by decide) (by decide) (by decide) (by decide)).2.1

/-! ## C2 — the at-most-one-emission invariant

A "claim emission" for key `k` is an UPDATE emitted by the INSERT handler
claiming `k` or a standalone DELETE emitted by the finalize timer for `k`;
a "registration" is a `Map.set` of `k`.  The invariant proved below:
along any run the number of claim emissions for `k` never exceeds the
number of registrations of `k` — each emission consumes the entry, so a
DELETE collapsed into an UPDATE can never also surface as a standalone
DELETE and vice versa, and the sweep contributes no emission at all.
Because the statement is quantified over every trace, it holds of every
prefix as well, which pins down at most one emission per registration
interval. -/

def boolNat (b : Bool) : Nat := if b then 1 else 0

/-- Is this item a claim emission for key `k`? -/
def isClaimItem (k : String) : Item → Bool
  | .emit (.finalize k') _ => k' == k
  | .emit (.updateClaim k') _ => k' == k
  | _ => false

/-- Is this item a registration of key `k`? -/
def isRegItem (k : String) : Item → Bool
  | .setKey k' => k' == k
  | _ => false

def claimCount (k : String) (items : List Item) : Nat :=
  (items.filter (isClaimItem k)).length

def regCount (k : String) (items : List Item) : Nat :=
  (items.filter (isRegItem k)).length

theorem claimCount_append (k : String) (a b : List Item) :
    claimCount k (a ++ b) = claimCount k a + claimCount k b := by
  simp [claimCount, List.filter_append]

theorem regCount_append (k : String) (a b : List Item) :
    regCount k (a ++ b) = regCount k a + regCount k b := by
  simp [regCount, List.filter_append]

/-- Chaining two step bounds across sequential composition. -/
theorem bound_chain {c1 c2 r1 r2 h0 h1 h2 : Nat}
    (a : c1 + h1 ≤ h0 + r1) (b : c2 + h2 ≤ h1 + r2) :
    (c1 + c2) + h2 ≤ h0 + (r1 + r2) := by omega

theorem hasKey_mapSet (k dk : String) (v : PendingDelete) (st : Store) :
    hasKey k (mapSet dk v st) = (if k = dk then true else hasKey k st) := by
  by_cases h : k = dk
  · subst h; simp [hasKey, mapGet_mapSet_self]
  · simp [hasKey, h, mapGet_mapSet_ne h]

theorem hasKey_mapDelete (k dk : String) (st : Store) :
    hasKey k (mapDelete dk st) = (if k = dk then false else hasKey k st) := by
  by_cases h : k = dk
  · subst h; simp [hasKey, mapGet_mapDelete_self]
  · simp [hasKey, h, mapGet_mapDelete_ne h]

theorem runTask_bound (t : FinalizeTask) (st : Store) (k : String) :
    claimCount k (runTask t st).2 + boolNat (hasKey k (runTask t st).1)
      ≤ boolNat (hasKey k st) + regCount k (runTask t st).2 := by
  cases hget : mapGet t.deleteKey st with
  | none =>
      rw [runTask_absent t st hget]
      simp [claimCount, regCount]
  | some info =>
      by_cases hts : strictEqOpt info.commitTs t.commitTs = true
      · rw [runTask_fires t st info hget hts]
        by_cases hk : k = t.deleteKey
        · have h1 : hasKey t.deleteKey st = true := by simp [hasKey, hget]
          subst hk
          simp [claimCount, regCount, isClaimItem, isRegItem, hasKey_mapDelete,
                boolNat, h1, List.filter]
        · have hne : (t.deleteKey == k) = false := by
            simp [beq_iff_eq]; exact fun h => hk h.symm
          simp [claimCount, regCount, isClaimItem, isRegItem, hasKey_mapDelete, hk,
                boolNat, hne, List.filter]
      · rw [runTask_mismatch t st info hget (Bool.eq_false_iff.mpr hts)]
        simp [claimCount, regCount]

theorem sweepStore_hasKey_mono (now : Nat) (st : Store) (k : String)
    (h : hasKey k (sweepStore now st).1 = true) : hasKey k st = true := by
  induction st with
  | nil => simpa [sweepStore] using h
  | cons e rest ih =>
      by_cases hs : now - e.2.timestamp > staleThresholdMs
      · rw [sweepStore, if_pos hs] at h
        have := ih h
        by_cases hk : e.1 = k
        · simp [hasKey, mapGet, hk]
        · simp [hasKey, mapGet, hk] at this ⊢
          exact this
      · rw [sweepStore, if_neg hs] at h
        by_cases hk : e.1 = k
        · simp [hasKey, mapGet, hk]
        · simp [hasKey, mapGet, hk] at h ⊢
          exact ih h

theorem sweepStore_items_clean (now : Nat) (st : Store) (k : String) :
    claimCount k (sweepStore now st).2 = 0 ∧ regCount k (sweepStore now st).2 = 0 := by
  induction st with
  | nil => exact ⟨rfl, rfl⟩
  | cons e rest ih =>
      by_cases hs : now - e.2.timestamp > staleThresholdMs
      · rw [sweepStore, if_pos hs]
        simpa [claimCount, regCount, isClaimItem, isRegItem, List.filter] using ih
      · rw [sweepStore, if_neg hs]
        exact ih

theorem bound_of_register (k dk tn op : String) (v : PendingDelete) (st : Store) :
    claimCount k [Item.setKey dk, Item.kafkaMsg, Item.timerObs tn op]
      + boolNat (hasKey k (mapSet dk v st))
      ≤ boolNat (hasKey k st)
        + regCount k [Item.setKey dk, Item.kafkaMsg, Item.timerObs tn op] := by
  by_cases hk : k = dk
  · subst hk
    simp [claimCount, regCount, isClaimItem, isRegItem, List.filter, hasKey_mapSet, boolNat]
  · have hne : (dk == k) = false := by
      simp [beq_iff_eq]; exact fun h => hk h.symm
    simp [claimCount, regCount, isClaimItem, isRegItem, List.filter, hasKey_mapSet, hk,
          boolNat, hne]

theorem bound_of_claim (k dk tn : String) (ev : Event) (st : Store)
    (hpres : hasKey dk st = true) :
    claimCount k [Item.delKey dk, Item.emit (.updateClaim dk) ev, Item.kafkaMsg,
                  Item.timerObs tn "update"]
      + boolNat (hasKey k (mapDelete dk st))
      ≤ boolNat (hasKey k st)
        + regCount k [Item.delKey dk, Item.emit (.updateClaim dk) ev, Item.kafkaMsg,
                      Item.timerObs tn "update"] := by
  by_cases hk : k = dk
  · subst hk
    simp [claimCount, regCount, isClaimItem, isRegItem, List.filter, hasKey_mapDelete,
          boolNat, hpres]
  · have hne : (dk == k) = false := by
      simp [beq_iff_eq]; exact fun h => hk h.symm
    simp [claimCount, regCount, isClaimItem, isRegItem, List.filter, hasKey_mapDelete,
          hk, boolNat, hne]

theorem processCDCMessage_bound (now : Nat) (msg : RawMessage) (s : EngineState)
    (k : String) :
    claimCount k (processCDCMessage now msg s).2
      + boolNat (hasKey k (processCDCMessage now msg s).1.recentDeletes)
      ≤ boolNat (hasKey k s.recentDeletes)
        + regCount k (processCDCMessage now msg s).2 := by
  unfold processCDCMessage
  split
  · simp [claimCount, regCount, isClaimItem, isRegItem, List.filter]
  · split
    · simp [claimCount, regCount, catchItems, isClaimItem, isRegItem, List.filter]
    · split
      · -- simple-protocol path
        rename_i payload hvalue hnn hsimp
        cases hh : simpleHeuristic (simpleOpType payload) (simpleData payload) with
        | none => simp [hh, claimCount, regCount, catchItems, isClaimItem, isRegItem, List.filter]
        | some op => simp [hh, claimCount, regCount, isClaimItem, isRegItem, List.filter]
      · rename_i payload hvalue hnn hsimp
        dsimp only
        split
        · simp [claimCount, regCount, isClaimItem, isRegItem, List.filter]
        · split
          · apply bound_of_register
          · split
            · -- INSERT condition true
              split
              · -- extractable identity: consult the store
                split
                · -- some info
                  rename_i info heq
                  split
                  · apply bound_of_claim
                    simp [hasKey, heq]
                  · simp [claimCount, regCount, isClaimItem, isRegItem, List.filter]
                · simp [claimCount, regCount, isClaimItem, isRegItem, List.filter]
              · simp [claimCount, regCount, isClaimItem, isRegItem, List.filter]
            · -- pass-through / caught throw
              split
              · simp [claimCount, regCount, isClaimItem, isRegItem, List.filter]
              · simp [claimCount, regCount, catchItems, isClaimItem, isRegItem, List.filter]

theorem fireDueAux_bound (now : Nat) (ts : List FinalizeTask) (k : String) :
    ∀ st : Store,
    claimCount k (fireDueAux now ts st).2.2 + boolNat (hasKey k (fireDueAux now ts st).1)
      ≤ boolNat (hasKey k st) + regCount k (fireDueAux now ts st).2.2 := by
  induction ts with
  | nil => intro st; simp [fireDueAux, claimCount, regCount]
  | cons t rest ih =>
      intro st
      by_cases hd : t.due ≤ now
      · have h1 := runTask_bound t st k
        have h2 := ih (runTask t st).1
        simp only [fireDueAux]
        rw [if_pos hd]
        rw [claimCount_append, regCount_append]
        exact bound_chain h1 h2
      · simp only [fireDueAux]
        rw [if_neg hd]
        exact ih st

theorem stepA_bound (now : Nat) (a : Act) (s : EngineState) (k : String) :
    claimCount k (stepA now a s).2 + boolNat (hasKey k (stepA now a s).1.recentDeletes)
      ≤ boolNat (hasKey k s.recentDeletes) + regCount k (stepA now a s).2 := by
  have hf := fireDueAux_bound now s.tasks k s.recentDeletes
  cases a with
  | deliver m =>
      have hp := processCDCMessage_bound now m (fireDue now s).1 k
      simp only [stepA]
      rw [claimCount_append, regCount_append]
      exact bound_chain hf hp
  | sweep =>
      have hsw := sweepStore_items_clean now (fireDue now s).1.recentDeletes k
      have hmono : boolNat (hasKey k (sweepStore now (fireDue now s).1.recentDeletes).1)
          ≤ boolNat (hasKey k (fireDue now s).1.recentDeletes) := by
        by_cases hb : hasKey k (sweepStore now (fireDue now s).1.recentDeletes).1 = true
        · rw [hb, sweepStore_hasKey_mono now _ k hb]
        · simp [boolNat, Bool.eq_false_iff.mpr hb]
      simp only [stepA]
      rw [claimCount_append, regCount_append]
      refine bound_chain hf ?_
      rw [hsw.1, hsw.2]
      simpa using hmono
  | idle =>
      simp only [stepA]
      exact hf

theorem runA_bound (tr : List (Nat × Act)) (k : String) :
    ∀ s : EngineState,
    claimCount k (runA tr s).2 + boolNat (hasKey k (runA tr s).1.recentDeletes)
      ≤ boolNat (hasKey k s.recentDeletes) + regCount k (runA tr s).2 := by
  induction tr with
  | nil => intro s; simp [runA, claimCount, regCount]
  | cons p rest ih =>
      intro s
      obtain ⟨t, a⟩ := p
      have h1 := stepA_bound t a s k
      have h2 := ih (stepA t a s).1
      simp only [runA]
      rw [claimCount_append, regCount_append]
      exact bound_chain h1 h2

/-- **C2**: the at-most-one-emission invariant.  Along every run from the
fresh state, for every correlation key, the number of claim emissions —
UPDATEs from the INSERT handler plus standalone DELETEs from finalize
timers for that key — never exceeds the number of registrations of that
key; each emission removes the entry, so one pending delete can be
surfaced at most once (never both as an UPDATE and as a standalone
DELETE).  Quantification over every trace covers every prefix, pinning the
bound per registration interval.  The tie-break conjuncts: a finalize
timer that observes the entry absent, or present with a different
`commitTimestamp`, performs no store change and no emission; and the
background sweep never emits at all. -/
theorem at_most_one_emission_per_pending_delete (tr : List (Nat × Act)) (k : String) :
    claimCount k (runA tr initState).2 ≤ regCount k (runA tr initState).2
    ∧ (∀ (t : FinalizeTask) (st : Store),
        mapGet t.deleteKey st = none → runTask t st = (st, []))
    ∧ (∀ (t : FinalizeTask) (st : Store) (info : PendingDelete),
        mapGet t.deleteKey st = some info →
        strictEqOpt info.commitTs t.commitTs = false → runTask t st = (st, []))
    ∧ (∀ (now : Nat) (st : Store), eventsOf (sweepStore now st).2 = []) := by
  refine ⟨?_, runTask_absent, runTask_mismatch, ?_⟩
  · have h := runA_bound tr k initState
    have h0 : hasKey k initState.recentDeletes = false := rfl
    rw [h0] at h
    simp only [boolNat, if_false, Bool.false_eq_true] at h
    omega
  · intro now st
    induction st with
    | nil => rfl
    | cons e rest ih =>
        by_cases hs : now - e.2.timestamp > staleThresholdMs
        · rw [sweepStore, if_pos hs]
          simpa [eventsOf] using ih
        · rw [sweepStore, if_neg hs]
          simpa [eventsOf] using ih

/-- Witness for C2 at a concrete one-message run and a concrete no-op
finalize task. -/
theorem at_most_one_emission_per_pending_delete_witness :
    claimCount "users_7"
        (runA [(0, .deliver (mkDeleteMsg "users" (.obj [("id", .num 7)]) (.num 1)))]
          initState).2
      ≤ regCount "users_7"
          (runA [(0, .deliver (mkDeleteMsg "users" (.obj [("id", .num 7)]) (.num 1)))]
            initState).2
    ∧ runTask ⟨500, "users_7", some (.num 1), "users", .null⟩ [] = ([], []) :=
  ⟨(at_most_one_emission_per_pending_delete
      [(0, .deliver (mkDeleteMsg "users" (.obj [("id", .num 7)]) (.num 1)))] "users_7").1,
   (at_most_one_emission_per_pending_delete
      [(0, .deliver (mkDeleteMsg "users" (.obj [("id", .num 7)]) (.num 1)))] "users_7").2.1
     ⟨500, "users_7", some (.num 1), "users", .null⟩ [] rfl⟩
